import Mathlib

/-!
Verification of the bashbuddy (`bsh`) command organizer against its
specification.  The development shallowly embeds the relevant parts of
`src/main.rs`: the placeholder-substitution execution engine
(`run_command_from_config`), the persisted command store and its mutators
(`add_category_to_config`, `update_command`, ...), and the interactive
session's keyboard dispatcher (the event-handling part of `start_tui`).

Strings are modelled as `List Char` (`Str`); Rust byte indices returned by
`str::find` become character indices, which is observationally equivalent
for the find/slice/replace operations used by the engine.  `HashMap` is
modelled as an association list with unique keys: `insert` overwrites in
place, `remove` deletes the key's entry, and iteration order carries no
meaning (mirroring the unordered map).  Every call of `update_config_file`
(persistence) is recorded in an explicit write log.  A Rust `panic!`
(`unwrap` on `None`, out-of-bounds `Vec` indexing) is modelled by a
distinguished result (`Option.none` / `StepOut.panicked`).
-/

abbrev Str := List Char

/-! ## Placeholder engine (from `run_command_from_config`, main.rs:1098-1146) -/

/-- Does `pat` occur as a prefix of `s`?  (Model of matching a pattern at one
position of a Rust `str`.) -/
def hasPfx : Str → Str → Bool
  | [], _ => true
  | _ :: _, [] => false
  | p :: ps, c :: cs => p == c && hasPfx ps cs

/-- Index of the first occurrence of `pat` in the text — the model of Rust
`str::find` for the non-empty patterns the engine searches. -/
def findSub (pat : Str) : Str → Option Nat
  | [] => none
  | c :: cs => if hasPfx pat (c :: cs) then some 0 else (findSub pat cs).map (· + 1)

/-- The opening placeholder marker `"<["`. -/
def opMark : Str := ['<', '[']

/-- The closing placeholder marker `"]>"`. -/
def clMark : Str := [']', '>']

/-- Model of Rust `str::replacen(pat, repl, 1)` : replace the first
occurrence of `pat` (if any) by `repl`. -/
def replaceFirst (pat repl text : Str) : Str :=
  match findSub pat text with
  | none => text
  | some i => text.take i ++ repl ++ text.drop (i + pat.length)

/-- ASCII whitespace test used to model Rust `str::trim` on the inputs the
program handles. -/
def isWsp (c : Char) : Bool := c == ' ' || c == '\t' || c == '\n' || c == '\r'

/-- Model of Rust `str::trim`: strip leading and trailing whitespace. -/
def trimChars (l : Str) : Str :=
  ((l.dropWhile isWsp).reverse.dropWhile isWsp).reverse

/-- Result of the placeholder loop: `ok` is the fully substituted command
line (handed to `sh -c`), `unmatched` is the "Mismatched placeholder
brackets" abort (carrying the text current at abort time), and
`inputExhausted` means the loop still wanted a value after the supplied
answer list (the real program would still be blocked prompting on stdin). -/
inductive SubstResult where
  | ok (s : Str)
  | unmatched (s : Str)
  | inputExhausted
deriving DecidableEq, Repr

/-- One scan of the current text, mirroring main.rs:1116-1117:
`final_command.find("<[")`, then `final_command[start..].find("]>")`
(`e` is relative to `s`, exactly as `end` is in the source). -/
inductive ScanResult where
  | noMarker
  | badMarker
  | found (s e : Nat)
deriving DecidableEq, Repr

def scanMarker (fc : Str) : ScanResult :=
  match findSub opMark fc with
  | none => .noMarker
  | some s =>
    match findSub clMark (fc.drop s) with
    | none => .badMarker
    | some e => .found s e

/-- `&final_command[start + 2..start + end]` (main.rs:1118). -/
def placeholderName (fc : Str) (s e : Nat) : Str :=
  (fc.drop (s + 2)).take (e - 2)

/-- The placeholder loop of main.rs:1115-1134.  Each iteration consumes one
answer from the modelled stdin, trims it, and replaces the first occurrence
of the full reconstructed token `format!("<[{}]>", placeholder)`. -/
def substPlaceholders : Str → List Str → SubstResult
  | fc, [] =>
    match scanMarker fc with
    | .noMarker => .ok fc
    | .badMarker => .unmatched fc
    | .found _ _ => .inputExhausted
  | fc, a :: rest =>
    match scanMarker fc with
    | .noMarker => .ok fc
    | .badMarker => .unmatched fc
    | .found s e =>
      substPlaceholders
        (replaceFirst (opMark ++ placeholderName fc s e ++ clMark) (trimChars a) fc) rest

/-- Executable statement of "the text contains an opening marker `<[` with
no matching closing marker `]>` anywhere at or after it". -/
def hasBrokenMarker (text : Str) : Bool :=
  (List.range text.length).any fun i =>
    hasPfx opMark (text.drop i) &&
    (List.range text.length).all fun j => decide (j < i) || !hasPfx clMark (text.drop j)

/-! ## Command store (from `Config` and its mutators, main.rs:23-26, 981-1169) -/

/-- Association-list lookup: the model of `HashMap::get`. -/
def lookupA {β : Type} (k : Str) : List (Str × β) → Option β
  | [] => none
  | (k', v) :: rest => if k' = k then some v else lookupA k rest

/-- Model of `HashMap::contains_key`. -/
def containsA {β : Type} (k : Str) (l : List (Str × β)) : Bool :=
  (lookupA k l).isSome

/-- Model of `HashMap::insert`: overwrite the key's entry in place, or add
it when absent. -/
def insertA {β : Type} (k : Str) (v : β) : List (Str × β) → List (Str × β)
  | [] => [(k, v)]
  | (k', v') :: rest => if k' = k then (k, v) :: rest else (k', v') :: insertA k v rest

/-- Model of `HashMap::remove` (keys are unique in a `HashMap`). -/
def removeA {β : Type} (k : Str) : List (Str × β) → List (Str × β)
  | [] => []
  | (k', v') :: rest => if k' = k then rest else (k', v') :: removeA k rest

/-- The persisted store: `struct Config { categories: HashMap<String, HashMap<String, String>> }`. -/
structure Config where
  categories : List (Str × List (Str × Str))
deriving DecidableEq, Repr

/-- Lookup of a command text by category and alias name. -/
def lookupCmd (config : Config) (category aliasName : Str) : Option Str :=
  (lookupA category config.categories).bind fun cmds => lookupA aliasName cmds

/-- main.rs:1055-1057. -/
def check_if_category_exists (category : Str) (config : Config) : Bool :=
  containsA category config.categories

/-- main.rs:1059-1061.  `config.categories.get(category).unwrap()` panics
when the category is absent; the panic is modelled by `none`. -/
def check_if_command_exists (category aliasName : Str) (config : Config) : Option Bool :=
  (lookupA category config.categories).map fun cmds => containsA aliasName cmds

/-- main.rs:1156-1163.  The second component is the log of
`update_config_file` calls (each entry is the store state written). -/
def add_category_to_config (category : Str) (config : Config) : Config × List Config :=
  if containsA category config.categories then (config, [])
  else
    let c' : Config := ⟨insertA category [] config.categories⟩
    (c', [c'])

/-- main.rs:1165-1169. -/
def remove_category_from_config (category : Str) (config : Config) : Config × List Config :=
  if containsA category config.categories then
    let c' : Config := ⟨removeA category config.categories⟩
    (c', [c'])
  else (config, [])

/-- main.rs:1148-1154. -/
def remove_command_from_config (category aliasName : Str) (config : Config) : Config × List Config :=
  match lookupA category config.categories with
  | none => (config, [])
  | some cmds =>
    if containsA aliasName cmds then
      let c' : Config := ⟨insertA category (removeA aliasName cmds) config.categories⟩
      (c', [c'])
    else (config, [])

/-- main.rs:1063-1081.  The `get_mut(category).unwrap()` after the ensure-
insert is modelled by the `Option`; it is `none` exactly when the unwrap
would panic. -/
def add_command_to_config (category command aliasName : Str) (config : Config) :
    Option (Config × List Config) :=
  let cats :=
    if containsA category config.categories then config.categories
    else insertA category [] config.categories
  (lookupA category cats).map fun cmds =>
    let c' : Config := ⟨insertA category (insertA aliasName command cmds) cats⟩
    (c', [c'])

/-- main.rs:1083-1096; `none` models the `get_mut(category).unwrap()` panic. -/
def update_command_in_config (category command aliasName : Str) (config : Config) :
    Option (Config × List Config) :=
  (lookupA category config.categories).map fun cmds =>
    let c' : Config := ⟨insertA category (insertA aliasName command cmds) config.categories⟩
    (c', [c'])

/-- main.rs:994-1005 (`update_command`, the CLI `update` handler: the
spec's `addOrUpdateCommand`). -/
def update_command (category command aliasName : Str) (config : Config) :
    Option (Config × List Config) :=
  let r1 :=
    if check_if_category_exists category config then (config, ([] : List Config))
    else add_category_to_config category config
  match check_if_command_exists category aliasName r1.1 with
  | none => none
  | some true =>
    (update_command_in_config category command aliasName r1.1).map fun p => (p.1, r1.2 ++ p.2)
  | some false =>
    (add_command_to_config category command aliasName r1.1).map fun p => (p.1, r1.2 ++ p.2)

/-- Outcome of a `run` invocation.  `spawned fc` means `sh -c fc` was
handed to the OS; `panicked` marks a Rust panic (never reached, see C9);
`lateMiss` is the defensive re-check inside `run_command_from_config`. -/
inductive RunOutcome where
  | categoryMiss
  | aliasMiss
  | lateMiss
  | emptyReject
  | placeholderError
  | inputExhausted
  | spawned (fc : Str)
  | panicked
deriving DecidableEq, Repr

/-- main.rs:1098-1146, with the interactive stdin modelled by `answers`. -/
def run_command_from_config (category aliasName : Str) (config : Config)
    (answers : List Str) : RunOutcome :=
  match lookupCmd config category aliasName with
  | none => .lateMiss
  | some cmd =>
    if trimChars cmd = [] then .emptyReject
    else
      match substPlaceholders cmd answers with
      | .ok fc => .spawned fc
      | .unmatched _ => .placeholderError
      | .inputExhausted => .inputExhausted

/-- main.rs:1007-1018. -/
def run_command (category aliasName : Str) (config : Config) (answers : List Str) : RunOutcome :=
  if !check_if_category_exists category config then .categoryMiss
  else
    match check_if_command_exists category aliasName config with
    | none => .panicked
    | some exists_cmd =>
      if !exists_cmd then .aliasMiss
      else run_command_from_config category aliasName config answers

/-- The CLI `run` dispatch (main.rs:189-193): it calls `run_command` with a
shared borrow of the store and triggers no persistence, so the store and the
write log come back unchanged. -/
def run_cli (category aliasName : Str) (config : Config) (answers : List Str) :
    Config × List Config × RunOutcome :=
  (config, [], run_command category aliasName config answers)

/-- Result of the spawned process, as seen by the engine after the blocking
`.output()` call (main.rs:1136-1141): either the spawn failed or the
process exited with some status. -/
inductive SpawnResult where
  | failed (msg : Str)
  | exited (status : Int)
deriving DecidableEq, Repr

/-- main.rs:1143-1145: the only post-spawn reporting the engine does.  It
prints a message for a spawn failure and nothing otherwise — the exit
status is never inspected. -/
def engine_spawn_report : SpawnResult → Option Str
  | .failed e => some ("Failed to execute command: ".data ++ e)
  | .exited _ => none

/-! ## Interactive session (from the event-handling part of `start_tui`, main.rs:682-975) -/

/-- `enum Mode` (main.rs:41-45). -/
inductive Mode where
  | category
  | command
  | buttons
deriving DecidableEq, Repr

/-- `enum InputMode` (main.rs:53-58). -/
inductive InputMode where
  | normal
  | editing
  | adding
deriving DecidableEq, Repr

/-- The crossterm key events the dispatcher distinguishes; every other key
is covered by the wildcard arms. -/
inductive KeyEv where
  | esc
  | up
  | down
  | left
  | right
  | enter
  | backspace
  | char (c : Char)
  | other
deriving DecidableEq, Repr

/-- The session state: `AppState` (main.rs:28-38) together with the two tui
`ListState`s (`category_state`, `command_state`), the live `Config`, and the
accumulated log of `update_config_file` calls. -/
structure Sess where
  categories : List Str
  commands : List (Str × List (Str × Str))
  catLS : Option Nat
  cmdLS : Option Nat
  selected_category : Option Nat
  selected_command : Option Nat
  selected_button : Option Nat
  mode : Mode
  input_mode : InputMode
  input : Str
  cfg : Config
  writes : List Config
deriving DecidableEq, Repr

/-- Result of dispatching one key event: continue the loop, end the session
(`break`), optionally recording the `(category, alias)` handed to
`run_command` on the Enter-at-CommandList path, or hit a Rust panic
(`unwrap` on `None` / out-of-bounds indexing). -/
inductive StepOut where
  | cont (s : Sess)
  | ended (s : Sess) (ran : Option (Str × Str))
  | panicked
deriving DecidableEq, Repr

/-- `app_state.commands.entry(category).or_insert_with(Vec::new).push(entry)`
(main.rs:948-952). -/
def entryPush (k : Str) (v : Str × Str) (l : List (Str × List (Str × Str))) :
    List (Str × List (Str × Str)) :=
  match lookupA k l with
  | some lst => insertA k (lst ++ [v]) l
  | none => insertA k [v] l

/-- `input.splitn(2, ' ')` (main.rs:921): `none` when the buffer holds no
space (`parts.len() == 1`), otherwise the parts before and after the first
space. -/
def splitFirstSpace : Str → Option (Str × Str)
  | [] => none
  | c :: rest =>
    if c = ' ' then some ([], rest)
    else (splitFirstSpace rest).map fun p => (c :: p.1, p.2)

/-- One iteration of the `start_tui` event loop (main.rs:682-975): the
dispatch of a single key event against the current session state. -/
def start_tui_step (s : Sess) : KeyEv → StepOut
  | .esc =>
    match s.input_mode with
    | .normal => .ended s none
    | .editing => .cont { s with input_mode := .normal, input := [] }
    | .adding => .cont { s with input_mode := .normal, input := [] }
  | .up =>
    match s.input_mode with
    | .normal =>
      match s.mode with
      | .category =>
        match s.catLS with
        | some sel =>
          if sel > 0 then
            .cont { s with catLS := some (sel - 1), selected_category := some (sel - 1) }
          else .cont s
        | none => .cont s
      | .command =>
        match s.cmdLS with
        | some sel =>
          if sel > 0 then
            .cont { s with cmdLS := some (sel - 1), selected_command := some (sel - 1) }
          else .cont s
        | none => .cont s
      | .buttons => .cont s
    | .editing => .cont s
    | .adding => .cont { s with input_mode := .normal, input := [] }
  | .down =>
    match s.input_mode with
    | .normal =>
      match s.mode with
      | .category =>
        if s.categories = [] then .cont { s with input_mode := .adding, input := [] }
        else
          match s.catLS with
          | some sel =>
            if sel < s.categories.length - 1 then
              .cont { s with catLS := some (sel + 1), selected_category := some (sel + 1) }
            else .cont { s with input_mode := .adding, input := [] }
          | none => .cont s
      | .command =>
        match s.cmdLS with
        | some sel =>
          match s.selected_category with
          | none => .panicked
          | some ci =>
            match s.categories.get? ci with
            | none => .panicked
            | some cat =>
              match lookupA cat s.commands with
              | none => .cont s
              | some cmds =>
                if cmds.length = 0 ∨ sel ≥ cmds.length - 1 then
                  .cont { s with input_mode := .adding, input := [] }
                else .cont { s with cmdLS := some (sel + 1), selected_command := some (sel + 1) }
        | none => .cont s
      | .buttons => .cont s
    | .editing => .cont s
    | .adding => .cont s
  | .left =>
    match s.input_mode with
    | .normal =>
      match s.mode with
      | .category => .cont s
      | .command => .cont { s with mode := .category, selected_command := none }
      | .buttons =>
        match s.selected_button with
        | some sel =>
          if sel > 0 then .cont { s with selected_button := some (sel - 1) }
          else .cont { s with mode := .command }
        | none => .cont s
    | .editing => .cont s
    | .adding => .cont s
  | .right =>
    match s.input_mode with
    | .normal =>
      match s.mode with
      | .category =>
        if s.categories ≠ [] then
          .cont { s with mode := .command, cmdLS := some 0, selected_command := some 0 }
        else .cont s
      | .command =>
        match s.selected_category with
        | none => .cont s
        | some ci =>
          match s.categories.get? ci with
          | none => .panicked
          | some cat =>
            match lookupA cat s.commands with
            | none => .cont s
            | some cmds =>
              if cmds ≠ [] then .cont { s with mode := .buttons, selected_button := some 0 }
              else .cont s
      | .buttons =>
        match s.selected_button with
        | some sel =>
          if sel < 1 then .cont { s with selected_button := some (sel + 1) }
          else .cont s
        | none => .cont s
    | .editing => .cont s
    | .adding => .cont s
  | .enter =>
    match s.input_mode with
    | .normal =>
      match s.mode with
      | .category =>
        if s.categories ≠ [] then
          .cont { s with mode := .command, cmdLS := some 0, selected_command := some 0 }
        else .cont s
      | .command =>
        match s.selected_category with
        | none => .ended s none
        | some ci =>
          match s.categories.get? ci with
          | none => .panicked
          | some cat =>
            match lookupA cat s.commands with
            | none => .ended s none
            | some cmds =>
              match s.selected_command with
              | none => .ended s none
              | some scmd =>
                match cmds.get? scmd with
                | none => .panicked
                | some entry => .ended s (some (cat, entry.1))
      | .buttons =>
        match s.selected_button with
        | none => .cont s
        | some sel =>
          if sel = 0 then
            match s.selected_command with
            | none => .cont s
            | some scmd =>
              match s.selected_category with
              | none => .panicked
              | some ci =>
                match s.categories.get? ci with
                | none => .panicked
                | some cat =>
                  match lookupA cat s.commands with
                  | none => .panicked
                  | some cmds =>
                    match cmds.get? scmd with
                    | none => .panicked
                    | some entry =>
                      .cont { s with input := entry.2, input_mode := .editing }
          else if sel = 1 then
            match s.selected_command with
            | none => .cont s
            | some scmd =>
              match s.selected_category with
              | none => .panicked
              | some ci =>
                match s.categories.get? ci with
                | none => .panicked
                | some cat =>
                  match lookupA cat s.commands with
                  | none => .panicked
                  | some cmds =>
                    match cmds.get? scmd with
                    | none => .panicked
                    | some entry =>
                      let cmds' := cmds.eraseIdx scmd
                      let snapshot' := insertA cat cmds' s.commands
                      let cfgCats' :=
                        match lookupA cat s.cfg.categories with
                        | some inner => insertA cat (removeA entry.1 inner) s.cfg.categories
                        | none => s.cfg.categories
                      let cfg' : Config := ⟨cfgCats'⟩
                      .cont { s with
                              commands := snapshot', cfg := cfg',
                              writes := s.writes ++ [cfg'],
                              mode := .command, cmdLS := some 0, selected_command := some 0 }
          else .cont s
    | .editing =>
      match s.selected_command with
      | none => .cont s
      | some scmd =>
        match s.selected_category with
        | none => .panicked
        | some ci =>
          match s.categories.get? ci with
          | none => .panicked
          | some cat =>
            match lookupA cat s.commands with
            | none => .panicked
            | some cmds =>
              match cmds.get? scmd with
              | none => .panicked
              | some entry =>
                match update_command cat s.input entry.1 s.cfg with
                | none => .panicked
                | some (cfg1, w1) =>
                  let snapshot' := insertA cat (cmds.set scmd (entry.1, s.input)) s.commands
                  .cont { s with
                          cfg := cfg1, commands := snapshot',
                          writes := s.writes ++ w1 ++ [cfg1],
                          input_mode := .normal, input := [] }
    | .adding =>
      if s.mode = .category ∧ s.input ≠ [] then
        if s.input ∉ s.categories then
          let (cfg1, w1) := add_category_to_config s.input s.cfg
          .cont { s with
                  cfg := cfg1,
                  categories := s.categories ++ [s.input],
                  commands := insertA s.input [] s.commands,
                  writes := s.writes ++ w1 ++ [cfg1],
                  input_mode := .normal, input := [] }
        else .cont s
      else if s.mode = .command ∧ s.input ≠ [] then
        match splitFirstSpace s.input with
        | none => .cont s
        | some (al, cmd) =>
          match s.selected_category with
          | none => .panicked
          | some ci =>
            match s.categories.get? ci with
            | none => .panicked
            | some cat =>
              let alias_exists :=
                match lookupA cat s.cfg.categories with
                | some cmds => containsA al cmds
                | none => false
              let category_exists := containsA cat s.cfg.categories
              if alias_exists then .cont s
              else
                let cfgCats' :=
                  match lookupA cat s.cfg.categories with
                  | some cmds => insertA cat (insertA al cmd cmds) s.cfg.categories
                  | none =>
                    if !category_exists then insertA cat [(al, cmd)] s.cfg.categories
                    else s.cfg.categories
                let cfg' : Config := ⟨cfgCats'⟩
                .cont { s with
                        cfg := cfg',
                        commands := entryPush cat (al, cmd) s.commands,
                        writes := s.writes ++ [cfg'],
                        mode := .command, input_mode := .normal, input := [] }
      else .cont s
  | .backspace =>
    match s.input_mode with
    | .normal => .cont s
    | .editing => .cont { s with input := s.input.dropLast }
    | .adding => .cont { s with input := s.input.dropLast }
  | .char c =>
    match s.input_mode with
    | .normal =>
      match s.mode with
      | .category =>
        if c = 'd' then
          match s.catLS with
          | none => .cont s
          | some sel =>
            match s.categories.get? sel with
            | none => .panicked
            | some category_to_delete =>
              let (cfg1, w1) := remove_category_from_config category_to_delete s.cfg
              let cats' := s.categories.eraseIdx sel
              let cmds' := removeA category_to_delete s.commands
              let newSel : Option Nat :=
                if sel ≥ cats'.length then
                  if cats'.length = 0 then none else some (cats'.length - 1)
                else some sel
              .cont { s with
                      cfg := cfg1, categories := cats', commands := cmds',
                      catLS := newSel, selected_category := newSel,
                      writes := s.writes ++ w1 ++ [cfg1] }
        else .cont s
      | .command => .cont s
      | .buttons => .cont s
    | .editing => .cont { s with input := s.input ++ [c] }
    | .adding => .cont { s with input := s.input ++ [c] }
  | .other => .cont s

/-! ## Association-list lemmas -/

theorem lookupA_insertA_self {β : Type} (k : Str) (v : β) (l : List (Str × β)) :
    lookupA k (insertA k v l) = some v := by
  induction l with
  | nil => simp [insertA, lookupA]
  | cons hd tl ih =>
    by_cases h : hd.1 = k
    · simp [insertA, h, lookupA]
    · simp [insertA, h, lookupA, ih]

theorem lookupA_insertA_ne {β : Type} {k k' : Str} (v : β) (l : List (Str × β))
    (h : k' ≠ k) : lookupA k (insertA k' v l) = lookupA k l := by
  induction l with
  | nil => simp [insertA, lookupA, h]
  | cons hd tl ih =>
    by_cases h2 : hd.1 = k'
    · have h3 : ¬hd.1 = k := by rw [h2]; exact h
      simp [insertA, h2, lookupA, h, h3]
    · by_cases h3 : hd.1 = k <;> simp [insertA, h2, lookupA, h3, Ne.symm h, ih]

theorem lookupA_eq_none_of_not_mem {β : Type} {k : Str} {l : List (Str × β)}
    (h : k ∉ l.map Prod.fst) : lookupA k l = none := by
  induction l with
  | nil => rfl
  | cons hd tl ih =>
    simp only [List.map_cons, List.mem_cons] at h
    push_neg at h
    have h1 : ¬hd.1 = k := fun he => h.1 he.symm
    simp [lookupA, h1, ih h.2]

theorem lookupA_removeA_self {β : Type} {k : Str} {l : List (Str × β)}
    (h : (l.map Prod.fst).Nodup) : lookupA k (removeA k l) = none := by
  induction l with
  | nil => rfl
  | cons hd tl ih =>
    simp only [List.map_cons, List.nodup_cons] at h
    by_cases h2 : hd.1 = k
    · have h4 : k ∉ tl.map Prod.fst := by rw [← h2]; exact h.1
      simpa [removeA, h2] using lookupA_eq_none_of_not_mem h4
    · simp [removeA, h2, lookupA, ih h.2]

theorem containsA_exists {β : Type} {k : Str} {l : List (Str × β)}
    (h : containsA k l = true) : ∃ v, lookupA k l = some v := by
  simpa [containsA, Option.isSome_iff_exists] using h

/-! ## C3: addOrUpdateCommand followed by lookup -/

/-- C3: for every store state and every `(category, alias, text)`, the
operation `update_command` (the spec's `addOrUpdateCommand`) succeeds —
creating the category first when absent, then inserting or overwriting the
alias — and afterwards the lookup of `(category, alias)` returns exactly
`text`. -/
theorem c3_add_or_update_then_lookup (cfg : Config) (c a t : Str) :
    ∃ cfg' w, update_command c t a cfg = some (cfg', w) ∧ lookupCmd cfg' c a = some t := by
  by_cases h : containsA c cfg.categories
  · obtain ⟨cmds, hcm⟩ := containsA_exists h
    by_cases h2 : containsA a cmds
    · refine ⟨⟨insertA c (insertA a t cmds) cfg.categories⟩,
        [⟨insertA c (insertA a t cmds) cfg.categories⟩], ?_, ?_⟩
      · simp [update_command, check_if_category_exists, h, check_if_command_exists, hcm, h2,
              update_command_in_config]
      · simp [lookupCmd, lookupA_insertA_self]
    · refine ⟨⟨insertA c (insertA a t cmds) cfg.categories⟩,
        [⟨insertA c (insertA a t cmds) cfg.categories⟩], ?_, ?_⟩
      · simp [update_command, check_if_category_exists, h, check_if_command_exists, hcm, h2,
              add_command_to_config]
      · simp [lookupCmd, lookupA_insertA_self]
  · have hnone : lookupA c cfg.categories = none := by
      cases hx : lookupA c cfg.categories with
      | none => rfl
      | some v => exact absurd (by simp [containsA, hx]) h
    refine ⟨⟨insertA c (insertA a t []) (insertA c [] cfg.categories)⟩,
      [⟨insertA c [] cfg.categories⟩,
       ⟨insertA c (insertA a t []) (insertA c [] cfg.categories)⟩], ?_, ?_⟩
    · simp [update_command, check_if_category_exists, hnone, check_if_command_exists,
            add_category_to_config, add_command_to_config, containsA,
            lookupA_insertA_self, lookupA]
    · simp [lookupCmd, lookupA_insertA_self, lookupA]

/-! ## C4: addCategory of an existing category is a silent no-op -/

/-- C4: when the category already exists, `add_category_to_config` returns
the store unchanged (every category and alias mapping intact) and performs
no `update_config_file` call (empty write log). -/
theorem c4_add_existing_category_noop (cfg : Config) (c : Str)
    (h : containsA c cfg.categories = true) :
    add_category_to_config c cfg = (cfg, []) := by
  simp [add_category_to_config, h]

theorem c4_witness :
    containsA "x".data [("x".data, ([("a".data, "t".data)] : List (Str × Str)))] = true ∧
    add_category_to_config "x".data ⟨[("x".data, [("a".data, "t".data)])]⟩ =
      (⟨[("x".data, [("a".data, "t".data)])]⟩, []) :=
  ⟨by decide, c4_add_existing_category_noop _ _ (by decide)⟩

/-! ## C8: post-spawn reporting of the engine -/

/-- C8 counterexample: the claim says a non-zero exit status is reported to
the user as a warning.  At the concrete non-zero status `1` the engine's
post-spawn reporting emits nothing at all: only a spawn failure produces a
message (main.rs:1143-1145 checks `output` solely for `Err`). -/
theorem c8_counterexample :
    engine_spawn_report (.exited 1) = none ∧ (1 : Int) ≠ 0 :=
  ⟨rfl, by decide⟩

/-- C8 (amended): the engine waits for the process result; a non-zero exit
status is not treated as an engine error, but it is also not reported — the
engine prints a message only when spawning itself failed. -/
theorem c8_amended_report_behavior :
    (∀ st : Int, engine_spawn_report (.exited st) = none) ∧
    (∀ e : Str, engine_spawn_report (.failed e) =
      some ("Failed to execute command: ".data ++ e)) :=
  ⟨fun _ => rfl, fun _ => rfl⟩

/-! ## C9: run with unknown category/alias; the guarded unchecked lookup -/

theorem run_command_from_config_ne_panicked (c a : Str) (cfg : Config) (ans : List Str) :
    run_command_from_config c a cfg ans ≠ .panicked := by
  unfold run_command_from_config
  cases lookupCmd cfg c a with
  | none => simp
  | some cmd =>
    by_cases h : trimChars cmd = []
    · simp [h]
    · simp only [h, if_false]
      cases substPlaceholders cmd ans <;> simp

/-- C9: `run_command` with an unknown category or alias reports the
corresponding lookup miss and does nothing else — the store and write log
are untouched (`run_cli`) — and no execution path reaches the panic of the
unchecked category lookup inside `check_if_command_exists`, because that
check only runs after `check_if_category_exists` succeeded. -/
theorem c9_run_lookup_guarded (c a : Str) (cfg : Config) (ans : List Str) :
    run_command c a cfg ans ≠ .panicked ∧
    (check_if_category_exists c cfg = true → ∃ b, check_if_command_exists c a cfg = some b) ∧
    (check_if_category_exists c cfg = false → run_command c a cfg ans = .categoryMiss) ∧
    (∀ cmds, lookupA c cfg.categories = some cmds → containsA a cmds = false →
      run_command c a cfg ans = .aliasMiss) ∧
    run_cli c a cfg ans = (cfg, [], run_command c a cfg ans) := by
  refine ⟨?_, ?_, ?_, ?_, rfl⟩
  · unfold run_command
    by_cases h : check_if_category_exists c cfg
    · obtain ⟨cmds, hcm⟩ := containsA_exists h
      by_cases h2 : containsA a cmds <;>
        simp [h, check_if_command_exists, hcm, h2, run_command_from_config_ne_panicked]
    · simp [h]
  · intro h
    obtain ⟨cmds, hcm⟩ := containsA_exists h
    exact ⟨containsA a cmds, by simp [check_if_command_exists, hcm]⟩
  · intro h
    simp [run_command, h]
  · intro cmds hcm h2
    have h : check_if_category_exists c cfg = true := by
      simp [check_if_category_exists, containsA, hcm]
    simp [run_command, h, check_if_command_exists, hcm, h2]

theorem c9_witness :
    run_command "x".data "y".data ⟨[("c".data, [("a".data, "t".data)])]⟩ [] =
      .categoryMiss :=
  (c9_run_lookup_guarded "x".data "y".data ⟨[("c".data, [("a".data, "t".data)])]⟩ []).2.2.1
    (by decide)

/-! ## C10: Up in Adding behaves like Esc; Up in Editing is a no-op -/

/-- C10: in every session state with `inputMode = Adding`, the Up key takes
the same transition as Esc — the buffer is discarded and the input mode
returns to Normal with the store, snapshot and everything else untouched —
while in `inputMode = Editing` the Up key changes nothing at all. -/
theorem c10_up_key (s : Sess) :
    (s.input_mode = .adding →
      start_tui_step s .up = start_tui_step s .esc ∧
      start_tui_step s .up = .cont { s with input_mode := .normal, input := [] }) ∧
    (s.input_mode = .editing → start_tui_step s .up = .cont s) := by
  refine ⟨fun h => ⟨?_, ?_⟩, fun h => ?_⟩ <;> simp [start_tui_step, h]

theorem c10_witness :
    start_tui_step
      ⟨["c".data], [("c".data, [])], some 0, none, some 0, none, none,
        .category, .adding, ['a'], ⟨[("c".data, [])]⟩, []⟩ .up
    = start_tui_step
      ⟨["c".data], [("c".data, [])], some 0, none, some 0, none, none,
        .category, .adding, ['a'], ⟨[("c".data, [])]⟩, []⟩ .esc :=
  ((c10_up_key _).1 rfl).1

/-! ## C7: deleting a category from the category list -/

theorem containsA_insertA_self {β : Type} (k : Str) (v : β) (l : List (Str × β)) :
    containsA k (insertA k v l) = true := by
  simp [containsA, lookupA_insertA_self]

/-- C7: `d` at the category list deletes the selected category from the
store (with all its entries: the whole inner map goes), from the ordered
category snapshot and from the command snapshot; the category selection
keeps its previous index clamped to the new bounds, or becomes `none` when
the list is now empty; and while the category list is empty, Right and
Enter at the category list change nothing (the command list is
unreachable). -/
theorem c7_delete_category (s : Sess) (i : Nat) (cat : Str)
    (hm : s.mode = .category) (him : s.input_mode = .normal)
    (hls : s.catLS = some i) (hget : s.categories[i]? = some cat) :
    start_tui_step s (.char 'd') = .cont { s with
      cfg := (remove_category_from_config cat s.cfg).1,
      categories := s.categories.eraseIdx i,
      commands := removeA cat s.commands,
      catLS := if s.categories.eraseIdx i = [] then none
               else some (min i ((s.categories.eraseIdx i).length - 1)),
      selected_category := if s.categories.eraseIdx i = [] then none
               else some (min i ((s.categories.eraseIdx i).length - 1)),
      writes := s.writes ++ (remove_category_from_config cat s.cfg).2 ++
                [(remove_category_from_config cat s.cfg).1] } ∧
    ((s.cfg.categories.map Prod.fst).Nodup →
      ∀ al, lookupCmd (remove_category_from_config cat s.cfg).1 cat al = none) ∧
    (∀ s' : Sess, s'.mode = .category → s'.input_mode = .normal → s'.categories = [] →
      start_tui_step s' .right = .cont s' ∧ start_tui_step s' .enter = .cont s') := by
  refine ⟨?_, ?_, ?_⟩
  · obtain ⟨cats, cmds, cls, cmls, selcat, selcmd, selbtn, mode, imode, inp, cfg, wr⟩ := s
    simp only at hm him hls hget
    subst hm him hls
    have hlt : i < cats.length := by
      by_contra hc
      rw [List.getElem?_eq_none (by omega)] at hget
      cases hget
    have hlen : (cats.eraseIdx i).length = cats.length - 1 := by
      rw [List.length_eraseIdx]
      simp [hlt]
    simp [start_tui_step, hget]
    split_ifs with h1 h2 h3
    · rfl
    · simp only [Option.some.injEq]
      omega
    · exfalso
      rcases h3 with rfl | ⟨hl1, hl0⟩
      · simp at hlt
      · omega
    · simp only [Option.some.injEq]
      omega
  · intro hnd al
    unfold remove_category_from_config
    by_cases hc : containsA cat s.cfg.categories
    · simp [hc, lookupCmd, lookupA_removeA_self hnd]
    · have hnone : lookupA cat s.cfg.categories = none := by
        cases hx : lookupA cat s.cfg.categories with
        | none => rfl
        | some v => exact absurd (by simp [containsA, hx]) hc
      simp [hc, lookupCmd, hnone]
  · intro s' hm' him' hcats'
    constructor <;> simp [start_tui_step, him', hm', hcats']

theorem c7_witness :
    start_tui_step
      ⟨[['c']], [(['c'], [(['a'], ['t'])])], some 0, none, some 0, none, none,
        .category, .normal, [], ⟨[(['c'], [(['a'], ['t'])])]⟩, []⟩ (.char 'd')
    = .cont
      ⟨[], [], none, none, none, none, none,
        .category, .normal, [], ⟨[]⟩,
        [⟨[]⟩, ⟨[]⟩]⟩ := by
  have h := (c7_delete_category
    ⟨[['c']], [(['c'], [(['a'], ['t'])])], some 0, none, some 0, none, none,
      .category, .normal, [], ⟨[(['c'], [(['a'], ['t'])])]⟩, []⟩
    0 ['c'] rfl rfl rfl rfl).1
  simpa [remove_category_from_config, containsA, lookupA, removeA] using h

/-! ## C6: the Delete action button -/

/-- Projection of a `cont` step result. -/
def contSess : StepOut → Option Sess
  | .cont s => some s
  | _ => none

/-- C6 counterexample: with three commands and the third (index 2)
selected, Enter on the Delete button leaves `selected_command = some 0`.
The claim's "re-clamps the command selection index to the new list bounds"
would keep the index within the prior position, clamped: `min 2 (2 - 1) = 1`.
The code instead always resets the selection to index `0`. -/
theorem c6_counterexample :
    (contSess (start_tui_step
      ⟨[['c']], [(['c'], [(['a'], ['1']), (['b'], ['2']), (['e'], ['3'])])],
        some 0, some 2, some 0, some 2, some 1, .buttons, .normal, [],
        ⟨[(['c'], [(['a'], ['1']), (['b'], ['2']), (['e'], ['3'])])]⟩, []⟩
      .enter)).map Sess.selected_command = some (some 0) ∧
    some (some 0) ≠ some (some (min 2 (3 - 1 - 1))) := by
  constructor
  · decide
  · decide

/-- C6 (amended): Enter at the action buttons with button 1 (Delete)
selected removes only the selected command entry — the category itself
survives in the store — from both the store and the ordered snapshot,
persists once, RESETS the command selection to index 0 (rather than
clamping the old index), and returns the mode to the command list. -/
theorem c6_amended_delete_button (s : Sess) (k ci : Nat) (cat : Str)
    (cmds : List (Str × Str)) (entry : Str × Str) (inner : List (Str × Str))
    (hm : s.mode = .buttons) (him : s.input_mode = .normal)
    (hb : s.selected_button = some 1) (hsc : s.selected_command = some k)
    (hci : s.selected_category = some ci) (hcat : s.categories[ci]? = some cat)
    (hcm : lookupA cat s.commands = some cmds) (hk : cmds[k]? = some entry)
    (hcfg : lookupA cat s.cfg.categories = some inner) :
    start_tui_step s .enter = .cont { s with
      commands := insertA cat (cmds.eraseIdx k) s.commands,
      cfg := ⟨insertA cat (removeA entry.1 inner) s.cfg.categories⟩,
      writes := s.writes ++ [⟨insertA cat (removeA entry.1 inner) s.cfg.categories⟩],
      mode := .command, cmdLS := some 0, selected_command := some 0 } ∧
    containsA cat (insertA cat (removeA entry.1 inner) s.cfg.categories) = true ∧
    ((inner.map Prod.fst).Nodup → lookupA entry.1 (removeA entry.1 inner) = none) := by
  refine ⟨?_, containsA_insertA_self _ _ _, fun hnd => lookupA_removeA_self hnd⟩
  simp [start_tui_step, him, hm, hb, hsc, hci, hcat, hcm, hk, hcfg]

theorem c6_witness :
    start_tui_step
      ⟨[['c']], [(['c'], [(['a'], ['1']), (['b'], ['2'])])],
        some 0, some 1, some 0, some 1, some 1, .buttons, .normal, [],
        ⟨[(['c'], [(['a'], ['1']), (['b'], ['2'])])]⟩, []⟩ .enter
    = .cont
      ⟨[['c']], [(['c'], [(['a'], ['1'])])],
        some 0, some 0, some 0, some 0, some 1, .command, .normal, [],
        ⟨[(['c'], [(['a'], ['1'])])]⟩,
        [⟨[(['c'], [(['a'], ['1'])])]⟩]⟩ := by
  have h := (c6_amended_delete_button
    ⟨[['c']], [(['c'], [(['a'], ['1']), (['b'], ['2'])])],
      some 0, some 1, some 0, some 1, some 1, .buttons, .normal, [],
      ⟨[(['c'], [(['a'], ['1']), (['b'], ['2'])])]⟩, []⟩
    1 0 ['c'] [(['a'], ['1']), (['b'], ['2'])] (['b'], ['2'])
    [(['a'], ['1']), (['b'], ['2'])]
    rfl rfl rfl rfl rfl rfl rfl rfl rfl).1
  simpa [insertA, removeA, List.eraseIdx] using h

/-! ## C5: committing an added command from the command list -/

theorem splitFirstSpace_ne_nil {l : Str} {p : Str × Str}
    (h : splitFirstSpace l = some p) : l ≠ [] := by
  intro he
  subst he
  simp [splitFirstSpace] at h

/-- C5 counterexample: the claim says the buffer is split on the first
whitespace character.  The code splits on `' '` only (`splitn(2, ' ')`,
main.rs:921).  With buffer `"a\tb"` — which contains the whitespace
character `'\t'` and an alias `"a"` unknown in the selected category — the
claim demands a commit (entry added, inputMode back to Normal); the code
performs no mutation at all and stays in Adding mode. -/
theorem c5_counterexample :
    start_tui_step
      ⟨[['c']], [(['c'], [])], some 0, none, some 0, none, none,
        .command, .adding, ['a', '\t', 'b'], ⟨[(['c'], [])]⟩, []⟩ .enter
    = .cont
      ⟨[['c']], [(['c'], [])], some 0, none, some 0, none, none,
        .command, .adding, ['a', '\t', 'b'], ⟨[(['c'], [])]⟩, []⟩ ∧
    isWsp '\t' = true ∧
    splitFirstSpace ['a', '\t', 'b'] = none ∧
    lookupCmd ⟨[(['c'], [])]⟩ ['c'] ['a'] = none :=
  ⟨by decide, by decide, by decide, by decide⟩

/-- C5 (amended): with `inputMode = Adding` and `mode = CommandList`, Enter
splits the buffer on the first SPACE character (`' '`, not any whitespace)
into alias and text; if the buffer contains no space (in particular if it
is empty), or if the alias already exists in the selected category in the
store, the commit is silently dropped — no store or snapshot mutation, no
write, the buffer survives and `inputMode` stays Adding; otherwise the
entry is inserted into the store, appended to the ordered snapshot,
persisted once, and the state returns to `mode = CommandList`,
`inputMode = Normal`. -/
theorem c5_amended_add_command_commit (s : Sess)
    (him : s.input_mode = .adding) (hm : s.mode = .command) :
    (splitFirstSpace s.input = none → start_tui_step s .enter = .cont s) ∧
    (∀ al tx ci cat cmds,
      splitFirstSpace s.input = some (al, tx) →
      s.selected_category = some ci →
      s.categories[ci]? = some cat →
      lookupA cat s.cfg.categories = some cmds →
      (containsA al cmds = true → start_tui_step s .enter = .cont s) ∧
      (containsA al cmds = false →
        start_tui_step s .enter = .cont { s with
          cfg := ⟨insertA cat (insertA al tx cmds) s.cfg.categories⟩,
          commands := entryPush cat (al, tx) s.commands,
          writes := s.writes ++ [⟨insertA cat (insertA al tx cmds) s.cfg.categories⟩],
          mode := .command, input_mode := .normal, input := [] })) := by
  constructor
  · intro h
    by_cases he : s.input = []
    · simp [start_tui_step, him, hm, he]
    · simp [start_tui_step, him, hm, he, h]
  · intro al tx ci cat cmds hsp hci hcat hcfg
    have hne := splitFirstSpace_ne_nil hsp
    constructor
    · intro hex
      simp [start_tui_step, him, hm, hne, hsp, hci, hcat, hcfg, hex]
    · intro hex
      simp [start_tui_step, him, hm, hne, hsp, hci, hcat, hcfg, hex]

theorem c5_witness :
    start_tui_step
      ⟨[['c']], [(['c'], [])], some 0, none, some 0, none, none,
        .command, .adding, ['a', ' ', 'b'], ⟨[(['c'], [])]⟩, []⟩ .enter
    = .cont
      ⟨[['c']], [(['c'], [(['a'], ['b'])])], some 0, none, some 0, none, none,
        .command, .normal, [], ⟨[(['c'], [(['a'], ['b'])])]⟩,
        [⟨[(['c'], [(['a'], ['b'])])]⟩]⟩ := by
  have h := ((c5_amended_add_command_commit
    ⟨[['c']], [(['c'], [])], some 0, none, some 0, none, none,
      .command, .adding, ['a', ' ', 'b'], ⟨[(['c'], [])]⟩, []⟩
    rfl rfl).2 ['a'] ['b'] 0 ['c'] []
    (by decide) rfl (by decide) (by decide)).2 (by decide)
  simpa [entryPush, insertA, lookupA] using h

/-! ## Substring-search lemmas for the placeholder engine -/

theorem hasPfx_append_self (x z : Str) : hasPfx x (x ++ z) = true := by
  induction x with
  | nil => rfl
  | cons p ps ih => simp [hasPfx, ih]

theorem hasPfx_eq_append {x s : Str} (h : hasPfx x s = true) :
    s = x ++ s.drop x.length := by
  induction x generalizing s with
  | nil => simp
  | cons p ps ih =>
    cases s with
    | nil => simp [hasPfx] at h
    | cons c cs =>
      simp only [hasPfx, Bool.and_eq_true, beq_iff_eq] at h
      obtain ⟨rfl, h2⟩ := h
      simpa using ih h2

theorem findSub_cons_of_hasPfx {pat : Str} {c : Char} {cs : Str}
    (h : hasPfx pat (c :: cs) = true) : findSub pat (c :: cs) = some 0 := by
  simp [findSub, h]

theorem findSub_cons_of_not_hasPfx {pat : Str} {c : Char} {cs : Str}
    (h : hasPfx pat (c :: cs) = false) :
    findSub pat (c :: cs) = (findSub pat cs).map (· + 1) := by
  simp [findSub, h]

theorem findSub_eq_none_iff {a : Char} {ps text : Str} :
    findSub (a :: ps) text = none ↔ ∀ i, hasPfx (a :: ps) (text.drop i) = false := by
  induction text with
  | nil =>
    constructor
    · intro _ i
      simp only [List.drop_nil]
      rfl
    · intro _
      rfl
  | cons c cs ih =>
    constructor
    · intro h i
      cases hp : hasPfx (a :: ps) (c :: cs) with
      | true => rw [findSub_cons_of_hasPfx hp] at h; cases h
      | false =>
        rw [findSub_cons_of_not_hasPfx hp, Option.map_eq_none'] at h
        cases i with
        | zero => simpa using hp
        | succ n => simpa using (ih.mp h) n
    · intro h
      have h0 := h 0
      simp only [List.drop_zero] at h0
      rw [findSub_cons_of_not_hasPfx h0, Option.map_eq_none']
      exact ih.mpr fun i => by simpa using h (i + 1)

theorem findSub_eq_some_imp {pat text : Str} {n : Nat}
    (h : findSub pat text = some n) :
    hasPfx pat (text.drop n) = true ∧ ∀ i, i < n → hasPfx pat (text.drop i) = false := by
  induction text generalizing n with
  | nil => simp [findSub] at h
  | cons c cs ih =>
    cases hp : hasPfx pat (c :: cs) with
    | true =>
      rw [findSub_cons_of_hasPfx hp] at h
      cases h
      exact ⟨hp, fun i hi => absurd hi (by omega)⟩
    | false =>
      rw [findSub_cons_of_not_hasPfx hp, Option.map_eq_some'] at h
      obtain ⟨m, hm, rfl⟩ := h
      obtain ⟨h1, h2⟩ := ih hm
      refine ⟨by simpa using h1, fun i hi => ?_⟩
      cases i with
      | zero => simpa using hp
      | succ k => simpa using h2 k (by omega)

theorem findSub_isSome_of_occurs {a : Char} {ps text : Str} {i : Nat}
    (h : hasPfx (a :: ps) (text.drop i) = true) :
    ∃ n, findSub (a :: ps) text = some n ∧ n ≤ i := by
  cases hf : findSub (a :: ps) text with
  | none =>
    rw [findSub_eq_none_iff.mp hf i] at h
    cases h
  | some n =>
    refine ⟨n, rfl, ?_⟩
    by_contra hc
    rw [(findSub_eq_some_imp hf).2 i (by omega)] at h
    cases h

theorem findSub_append_shift {a b : Char} {ps x y : Str}
    (hx : findSub [a, b] x = none)
    (hbd : x.getLast? = some a → y.head? ≠ some b) :
    findSub (a :: b :: ps) (x ++ y) = (findSub (a :: b :: ps) y).map (· + x.length) := by
  induction x with
  | nil =>
    cases hf : findSub (a :: b :: ps) y <;> simp [hf]
  | cons c x' ih =>
    have hnp : hasPfx [a, b] (c :: x') = false := by
      cases hp : hasPfx [a, b] (c :: x') with
      | false => rfl
      | true => rw [findSub_cons_of_hasPfx hp] at hx; cases hx
    have hx' : findSub [a, b] x' = none := by
      have h2 := hx
      rw [findSub_cons_of_not_hasPfx hnp, Option.map_eq_none'] at h2
      exact h2
    have hbd' : x'.getLast? = some a → y.head? ≠ some b := by
      cases x' with
      | nil => intro h; simp at h
      | cons d x'' =>
        intro h
        exact hbd (by simpa [List.getLast?_cons_cons] using h)
    have hcond : hasPfx (a :: b :: ps) (c :: (x' ++ y)) = false := by
      cases x' with
      | nil =>
        simp only [List.nil_append]
        by_cases hac : a = c
        · subst hac
          cases y with
          | nil => simp [hasPfx]
          | cons e y' =>
            have hne : e ≠ b := by
              intro he
              exact (hbd (by simp)) (by simp [he])
            simp [hasPfx, Ne.symm hne]
        · simp [hasPfx, hac]
      | cons d x'' =>
        by_cases hac : a = c
        · subst hac
          by_cases hbd2 : b = d
          · subst hbd2
            simp [hasPfx] at hnp
          · simp [hasPfx, hbd2]
        · simp [hasPfx, hac]
    have hstep : findSub (a :: b :: ps) (c :: (x' ++ y))
        = (findSub (a :: b :: ps) (x' ++ y)).map (· + 1) :=
      findSub_cons_of_not_hasPfx hcond
    rw [List.cons_append, hstep, ih hx' hbd']
    cases findSub (a :: b :: ps) y with
    | none => rfl
    | some m =>
      simp only [Option.map_map, Option.map_some', Function.comp_apply, Option.some.injEq]
      simp only [List.length_cons]
      omega

theorem findSub_append_none {a b : Char} {ps x y : Str}
    (hx : findSub [a, b] x = none) (hy : findSub (a :: b :: ps) y = none)
    (hbd : x.getLast? = some a → y.head? ≠ some b) :
    findSub (a :: b :: ps) (x ++ y) = none := by
  rw [findSub_append_shift hx hbd, hy]
  rfl

theorem substPlaceholders_noMarker (l : Str) (ans : List Str)
    (h : findSub opMark l = none) : substPlaceholders l ans = .ok l := by
  cases ans <;> simp [substPlaceholders, scanMarker, h]

theorem substPlaceholders_step (pre post a : Str) (rest : List Str)
    (hpre : findSub opMark pre = none) :
    substPlaceholders (pre ++ ('<' :: '[' :: 'x' :: ']' :: '>' :: post)) (a :: rest)
      = substPlaceholders (pre ++ (trimChars a ++ post)) rest := by
  have hop : findSub opMark (pre ++ ('<' :: '[' :: 'x' :: ']' :: '>' :: post))
      = some pre.length := by
    rw [show (opMark : Str) = ['<', '['] from rfl]
    rw [@findSub_append_shift '<' '[' [] pre ('<' :: '[' :: 'x' :: ']' :: '>' :: post)
      hpre (fun _ => by simp)]
    rw [findSub_cons_of_hasPfx (by simp [hasPfx])]
    simp
  have hcl : findSub clMark (('<' : Char) :: '[' :: 'x' :: ']' :: '>' :: post)
      = some 3 := by
    rw [show (clMark : Str) = [']', '>'] from rfl]
    rw [show (('<' : Char) :: '[' :: 'x' :: ']' :: '>' :: post)
        = ['<', '[', 'x'] ++ (']' :: '>' :: post) from rfl]
    rw [@findSub_append_shift ']' '>' [] ['<', '[', 'x'] (']' :: '>' :: post)
      (by decide) (fun h => absurd h (by decide))]
    rw [findSub_cons_of_hasPfx (by simp [hasPfx])]
    simp
  have hname : placeholderName (pre ++ ('<' :: '[' :: 'x' :: ']' :: '>' :: post))
      pre.length 3 = ['x'] := by
    unfold placeholderName
    rw [List.drop_append]
    rfl
  have htok : findSub (opMark ++ ['x'] ++ clMark)
      (pre ++ ('<' :: '[' :: 'x' :: ']' :: '>' :: post)) = some pre.length := by
    rw [show (opMark ++ ['x'] ++ clMark : Str) = ['<', '[', 'x', ']', '>'] from rfl]
    rw [show (['<', '[', 'x', ']', '>'] : Str) = '<' :: '[' :: ['x', ']', '>'] from rfl]
    rw [@findSub_append_shift '<' '[' ['x', ']', '>'] pre
      ('<' :: '[' :: 'x' :: ']' :: '>' :: post) hpre (fun _ => by simp)]
    rw [findSub_cons_of_hasPfx (by simp [hasPfx])]
    simp
  have hrepl : replaceFirst (opMark ++ ['x'] ++ clMark) (trimChars a)
      (pre ++ ('<' :: '[' :: 'x' :: ']' :: '>' :: post))
      = pre ++ (trimChars a ++ post) := by
    simp only [replaceFirst, htok]
    rw [List.take_left]
    rw [show pre.length + (opMark ++ ['x'] ++ clMark : Str).length
        = pre.length + 5 from rfl]
    rw [List.drop_append]
    simp
  have hscan : scanMarker (pre ++ ('<' :: '[' :: 'x' :: ']' :: '>' :: post))
      = .found pre.length 3 := by
    simp only [scanMarker, hop, List.drop_left, hcl]
  simp only [substPlaceholders, hscan, hname, hrepl]


/-! ## C1: the placeholder substitution loop -/

/-- C1 counterexample: the claim promises, for text `"echo <[x]> <[x]>"`
and EVERY pair of answer strings, the final command "text with the first
token replaced by the first answer and the second token by the second
answer", the answers being spliced raw.  Two concrete refutations: the
engine trims each answer (`input.trim()`, main.rs:1125), so answers
`"A "`/`"B"` yield `"echo A B"` rather than the claimed `"echo A  B"`; and
an answer that itself contains a marker is rescanned, so answers
`"<[x]>"`/`"B"` leave a third placeholder to prompt for instead of the
claimed final command `"echo <[x]> B"`. -/
theorem c1_counterexample :
    substPlaceholders "echo <[x]> <[x]>".data ["A ".data, "B".data] = .ok "echo A B".data ∧
    "echo A B".data ≠ "echo A  B".data ∧
    substPlaceholders "echo <[x]> <[x]>".data ["<[x]>".data, "B".data]
      = .inputExhausted :=
  ⟨by decide, by decide, by decide⟩

/-- C1 (amended): each iteration replaces only the first (leftmost)
occurrence of the full token with the TRIMMED user input and rescans from
the beginning; for stored text `"echo <[x]> <[x]>"` and any two answers
whose trimmed text contains no `"<["` marker, supplied in scan order, the
final command line passed to the shell is
`"echo " ++ trim a1 ++ " " ++ trim a2` (e.g. answers "A", "B" give
`"echo A B"`). -/
theorem c1_amended (a1 a2 : Str)
    (h1 : findSub opMark (trimChars a1) = none)
    (h2 : findSub opMark (trimChars a2) = none) :
    substPlaceholders "echo <[x]> <[x]>".data [a1, a2]
      = .ok ("echo ".data ++ trimChars a1 ++ (' ' :: trimChars a2)) := by
  have e0 : "echo <[x]> <[x]>".data
      = "echo ".data ++ ('<' :: '[' :: 'x' :: ']' :: '>' ::
          (' ' :: '<' :: '[' :: 'x' :: ']' :: '>' :: [])) := by decide
  rw [e0]
  rw [substPlaceholders_step "echo ".data
    (' ' :: '<' :: '[' :: 'x' :: ']' :: '>' :: []) a1 [a2] (by decide)]
  have e1 : "echo ".data ++ (trimChars a1 ++ (' ' :: '<' :: '[' :: 'x' :: ']' :: '>' :: []))
      = ("echo ".data ++ trimChars a1 ++ [' ']) ++
          ('<' :: '[' :: 'x' :: ']' :: '>' :: ([] : Str)) := by
    simp
  rw [e1]
  have n0 : findSub opMark ("echo ".data ++ trimChars a1) = none :=
    @findSub_append_none '<' '[' [] "echo ".data (trimChars a1)
      (by decide) h1 (fun h => absurd h (by decide))
  have hpre2 : findSub opMark ("echo ".data ++ trimChars a1 ++ [' ']) = none :=
    @findSub_append_none '<' '[' [] ("echo ".data ++ trimChars a1) [' '] n0 (by decide)
      (fun _ => by simp)
  rw [substPlaceholders_step ("echo ".data ++ trimChars a1 ++ [' ']) [] a2 [] hpre2]
  have hfin : findSub opMark (("echo ".data ++ trimChars a1 ++ [' ']) ++
      (trimChars a2 ++ [])) = none := by
    rw [List.append_nil]
    refine @findSub_append_none '<' '[' [] ("echo ".data ++ trimChars a1 ++ [' '])
      (trimChars a2) hpre2 h2 ?_
    intro h
    rw [List.getLast?_concat] at h
    cases h
  rw [substPlaceholders_noMarker _ _ hfin]
  simp

theorem c1_witness :
    substPlaceholders "echo <[x]> <[x]>".data ["A".data, "B".data]
      = .ok ("echo ".data ++ trimChars "A".data ++ (' ' :: trimChars "B".data)) :=
  c1_amended "A".data "B".data (by decide) (by decide)

/-! ## C2: unmatched placeholder markers abort execution -/

theorem broken_step (text : Str) (s e : Nat) (r : Str) (i : Nat)
    (hs : findSub opMark text = some s)
    (he : findSub clMark (text.drop s) = some e)
    (hbi : hasPfx opMark (text.drop i) = true)
    (hbj : ∀ j, i ≤ j → hasPfx clMark (text.drop j) = false) :
    ∃ i', hasPfx opMark
        ((replaceFirst (opMark ++ placeholderName text s e ++ clMark) r text).drop i') = true ∧
      ∀ j, i' ≤ j → hasPfx clMark
        ((replaceFirst (opMark ++ placeholderName text s e ++ clMark) r text).drop j) = false := by
  have hsp : hasPfx opMark (text.drop s) = true := (findSub_eq_some_imp hs).1
  have hep0 : hasPfx clMark ((text.drop s).drop e) = true := (findSub_eq_some_imp he).1
  have hep : hasPfx clMark (text.drop (s + e)) = true := by
    rw [List.drop_drop] at hep0
    exact hep0
  have hD : text.drop s = '<' :: '[' :: (text.drop s).drop 2 := hasPfx_eq_append hsp
  have he2 : 2 ≤ e := by
    by_contra hlt
    push_neg at hlt
    interval_cases e
    · rw [List.drop_zero, hD] at hep0
      simp [clMark, hasPfx] at hep0
    · rw [hD] at hep0
      simp [clMark, hasPfx] at hep0
  have hD2 : (text.drop s).drop 2 = text.drop (s + 2) := by
    rw [List.drop_drop]
  have hlen1 : s + e < text.length := by
    by_contra hge
    push_neg at hge
    rw [List.drop_eq_nil_of_le hge] at hep
    simp [clMark, hasPfx] at hep
  set name := placeholderName text s e with hname_def
  have hname_len : name.length = e - 2 := by
    rw [hname_def]
    unfold placeholderName
    rw [List.length_take, List.length_drop]
    omega
  have hE0 := hasPfx_eq_append hep
  rw [List.drop_drop] at hE0
  have hE : text.drop (s + e) = ']' :: '>' :: text.drop (s + e + 2) := hE0
  have hsplit : text.drop (s + 2) = name ++ (text.drop (s + 2)).drop (e - 2) := by
    rw [hname_def]
    unfold placeholderName
    rw [List.take_append_drop]
  have hdd : (text.drop (s + 2)).drop (e - 2) = text.drop (s + e) := by
    rw [List.drop_drop]
    congr 1
    omega
  have hdecomp : text.drop s = ('<' :: '[' :: (name ++ clMark)) ++ text.drop (s + e + 2) := by
    conv_lhs => rw [hD, hD2, hsplit, hdd, hE]
    simp [clMark]
  rw [show opMark ++ name ++ clMark = '<' :: '[' :: (name ++ clMark) from rfl]
  have hl : ('<' :: '[' :: (name ++ clMark)).length = e + 2 := by
    simp [clMark, hname_len]
    omega
  have htokp : hasPfx ('<' :: '[' :: (name ++ clMark)) (text.drop s) = true := by
    rw [hdecomp]
    exact hasPfx_append_self _ _
  obtain ⟨s', hs', hs'le⟩ := findSub_isSome_of_occurs htokp
  have hdecomp' : text.drop s'
      = ('<' :: '[' :: (name ++ clMark)) ++ (text.drop s').drop (e + 2) := by
    have h := hasPfx_eq_append (findSub_eq_some_imp hs').1
    rw [hl] at h
    exact h
  have hE' : text.drop (s' + e) = ']' :: '>' :: (text.drop s').drop (e + 2) := by
    have h1 : text.drop (s' + e) = (text.drop s').drop e := by
      rw [List.drop_drop]
    have ha : ('<' :: '[' :: (name ++ clMark)) ++ (text.drop s').drop (e + 2)
        = ('<' :: '[' :: name) ++ (clMark ++ (text.drop s').drop (e + 2)) := by
      simp
    have h2 : (('<' :: '[' :: name) ++ (clMark ++ (text.drop s').drop (e + 2))).drop e
        = clMark ++ (text.drop s').drop (e + 2) := by
      apply List.drop_left'
      simp [hname_len]
      omega
    rw [h1]
    conv_lhs => rw [hdecomp', ha]
    rw [h2]
    rfl
  have hcls' : hasPfx clMark (text.drop (s' + e)) = true := by
    rw [hE']
    simp [clMark, hasPfx]
  have hlt1 : s' + e < i := by
    by_contra hge
    push_neg at hge
    rw [hbj (s' + e) hge] at hcls'
    cases hcls'
  have hne : i ≠ s' + e + 1 := by
    intro heq
    have h1 : text.drop i = '>' :: (text.drop s').drop (e + 2) := by
      rw [heq]
      rw [← List.drop_drop 1 (s' + e) text]
      rw [hE']
      rfl
    rw [h1] at hbi
    simp [opMark, hasPfx] at hbi
  have hge2 : s' + e + 2 ≤ i := by omega
  have hrepl : replaceFirst ('<' :: '[' :: (name ++ clMark)) r text
      = text.take s' ++ (r ++ text.drop (s' + (e + 2))) := by
    simp only [replaceFirst, hs', hl]
    simp
  have hs'lt : s' < text.length := by
    by_contra h
    push_neg at h
    rw [List.drop_eq_nil_of_le h] at hdecomp'
    cases hdecomp'
  have htakelen : (text.take s').length = s' := by
    rw [List.length_take]
    omega
  have hdropkey : ∀ k, (text.take s' ++ (r ++ text.drop (s' + (e + 2)))).drop
      (s' + (r.length + k)) = text.drop (s' + (e + 2) + k) := by
    intro k
    rw [show s' + (r.length + k) = (text.take s').length + (r.length + k) by rw [htakelen]]
    rw [List.drop_append, List.drop_append, List.drop_drop]
  refine ⟨s' + (r.length + (i - (s' + e + 2))), ?_, ?_⟩
  · rw [hrepl, hdropkey]
    rw [show s' + (e + 2) + (i - (s' + e + 2)) = i by omega]
    exact hbi
  · intro j hj
    rw [hrepl]
    rw [show j = s' + (r.length + (j - s' - r.length)) by omega]
    rw [hdropkey]
    apply hbj
    omega

theorem broken_no_ok (ans : List Str) : ∀ (text : Str) (i : Nat),
    hasPfx opMark (text.drop i) = true →
    (∀ j, i ≤ j → hasPfx clMark (text.drop j) = false) →
    (∃ u, substPlaceholders text ans = .unmatched u) ∨
      substPlaceholders text ans = .inputExhausted := by
  induction ans with
  | nil =>
    intro text i hbi hbj
    obtain ⟨s, hs0, _⟩ := findSub_isSome_of_occurs hbi
    have hs : findSub opMark text = some s := hs0
    cases he : findSub clMark (text.drop s) with
    | none =>
      exact Or.inl ⟨text, by simp [substPlaceholders, scanMarker, hs, he]⟩
    | some e =>
      exact Or.inr (by simp [substPlaceholders, scanMarker, hs, he])
  | cons a rest ih =>
    intro text i hbi hbj
    obtain ⟨s, hs0, _⟩ := findSub_isSome_of_occurs hbi
    have hs : findSub opMark text = some s := hs0
    cases he : findSub clMark (text.drop s) with
    | none =>
      exact Or.inl ⟨text, by simp [substPlaceholders, scanMarker, hs, he]⟩
    | some e =>
      obtain ⟨i', hbi', hbj'⟩ := broken_step text s e (trimChars a) i hs he hbi hbj
      have hres := ih _ i' hbi' hbj'
      have heq : substPlaceholders text (a :: rest)
          = substPlaceholders (replaceFirst (opMark ++ placeholderName text s e ++ clMark)
              (trimChars a) text) rest := by
        simp [substPlaceholders, scanMarker, hs, he]
      rw [heq]
      exact hres

theorem hasBrokenMarker_spec {text : Str} (h : hasBrokenMarker text = true) :
    ∃ i, hasPfx opMark (text.drop i) = true ∧
      ∀ j, i ≤ j → hasPfx clMark (text.drop j) = false := by
  unfold hasBrokenMarker at h
  rw [List.any_eq_true] at h
  obtain ⟨i, hmem, hcond⟩ := h
  rw [Bool.and_eq_true] at hcond
  obtain ⟨h1, h2⟩ := hcond
  rw [List.all_eq_true] at h2
  refine ⟨i, h1, fun j hij => ?_⟩
  by_cases hjlen : j < text.length
  · have h3 := h2 j (List.mem_range.mpr hjlen)
    rw [Bool.or_eq_true] at h3
    rcases h3 with hlt | hnp
    · exact absurd (of_decide_eq_true hlt) (by omega)
    · simpa using hnp
  · push_neg at hjlen
    rw [List.drop_eq_nil_of_le hjlen]
    rfl

theorem trimChars_ne_nil_of_mem {l : Str} {c : Char}
    (hm : c ∈ l) (hw : isWsp c = false) : trimChars l ≠ [] := by
  intro h
  unfold trimChars at h
  rw [List.reverse_eq_nil_iff, List.dropWhile_eq_nil_iff] at h
  rw [← List.takeWhile_append_dropWhile isWsp l, List.mem_append] at hm
  rcases hm with h1 | h2
  · exact absurd (List.mem_takeWhile_imp h1) (by simp [hw])
  · have := h c (by simpa using h2)
    rw [hw] at this
    cases this

/-- C2: whenever the stored text of `(category, alias)` contains an
opening marker `<[` with no matching closing marker `]>` anywhere after
it, `run` never spawns a shell process: it aborts with the "Mismatched
placeholder brackets" error, or — when the supplied answer list runs out
first — is still in the prompting loop (the model's `inputExhausted`).
The store and the write log are untouched (`run_cli` returns them
unchanged), so the stored command text is exactly what it was. -/
theorem c2_unmatched_marker_aborts (cfg : Config) (c a text : Str) (ans : List Str)
    (hl : lookupCmd cfg c a = some text)
    (hbm : hasBrokenMarker text = true) :
    (∀ fc, run_command c a cfg ans ≠ .spawned fc) ∧
    (run_command c a cfg ans = .placeholderError ∨
      run_command c a cfg ans = .inputExhausted) ∧
    run_cli c a cfg ans = (cfg, [], run_command c a cfg ans) := by
  obtain ⟨i, hbi, hbj⟩ := hasBrokenMarker_spec hbm
  obtain ⟨cmds, hcm, hal⟩ :
      ∃ cmds, lookupA c cfg.categories = some cmds ∧ lookupA a cmds = some text := by
    unfold lookupCmd at hl
    cases hx : lookupA c cfg.categories with
    | none => rw [hx] at hl; cases hl
    | some cmds => rw [hx] at hl; exact ⟨cmds, rfl, by simpa using hl⟩
  have hcee : check_if_category_exists c cfg = true := by
    simp [check_if_category_exists, containsA, hcm]
  have hcme : check_if_command_exists c a cfg = some true := by
    simp [check_if_command_exists, hcm, containsA, hal]
  have hrun : run_command c a cfg ans = run_command_from_config c a cfg ans := by
    simp [run_command, hcee, hcme]
  have htrim : trimChars text ≠ [] := by
    have hD : text.drop i = '<' :: '[' :: (text.drop i).drop 2 := hasPfx_eq_append hbi
    have hmem : '<' ∈ text := by
      refine List.drop_subset i text ?_
      rw [hD]
      exact List.mem_cons_self _ _
    exact trimChars_ne_nil_of_mem hmem (by decide)
  have hsub := broken_no_ok ans text i hbi hbj
  have hrcf : run_command_from_config c a cfg ans = .placeholderError ∨
      run_command_from_config c a cfg ans = .inputExhausted := by
    unfold run_command_from_config
    rw [hl]
    rcases hsub with ⟨u, hu⟩ | hex
    · left
      simp [htrim, hu]
    · right
      simp [htrim, hex]
  refine ⟨?_, by rw [hrun]; exact hrcf, rfl⟩
  intro fc
  rw [hrun]
  rcases hrcf with h | h <;> rw [h] <;> simp

theorem c2_witness :
    run_command ['c'] ['a'] ⟨[(['c'], [(['a'], "echo <[x]".data)])]⟩ [] = .placeholderError ∨
    run_command ['c'] ['a'] ⟨[(['c'], [(['a'], "echo <[x]".data)])]⟩ [] = .inputExhausted :=
  (c2_unmatched_marker_aborts ⟨[(['c'], [(['a'], "echo <[x]".data)])]⟩
    ['c'] ['a'] "echo <[x]".data [] (by decide) (by decide)).2.1
